import Mathlib

/-!
Verification of the tile-enumeration and region-resolution core of
`mui_tiles.py` (repository ItsLimitlezz/mui-tiles).

The Python source works on IEEE floats; the only transcendental step is the
Mercator latitude transform `asinh(tan(radians(lat)))/pi` inside `deg2num`.
Every claim under study quantifies over all latitudes, and for latitudes in
(-90, 90) that transform ranges over all reals, so we embed a latitude by the
rational value `merc` of its Mercator transform and keep all remaining
arithmetic exact over `ℚ`.  Python's `int()` conversion (truncation toward
zero) is modelled explicitly by `pyInt`.
-/

/-- Python `int()` applied to a real quantity: truncation toward zero. -/
def pyInt (q : ℚ) : ℤ := if 0 ≤ q then ⌊q⌋ else ⌈q⌉

/-- Embedding of `deg2num(lat_deg, lon_deg, zoom)` (src/mui_tiles.py lines
86-91).  `merc` stands for the Mercator transform
`asinh(tan(radians(lat_deg)))/pi` of the latitude argument, `lon` is the
longitude in degrees, and `n = 2.0 ** zoom` becomes `(2 : ℚ) ^ zoom`.
The source returns `(int((lon + 180)/360 * n), int((1 - merc)/2 * n))`. -/
def deg2num (merc lon : ℚ) (zoom : ℤ) : ℤ × ℤ :=
  (pyInt ((lon + 180) / 360 * (2 : ℚ) ^ zoom),
   pyInt ((1 - merc) / 2 * (2 : ℚ) ^ zoom))

/-- Embedding of the `Tile` dataclass (src/mui_tiles.py lines 79-83). -/
structure Tile where
  z : ℤ
  x : ℤ
  y : ℤ
deriving DecidableEq, Repr

/-- Python `range(a, b)` over integers, as an ascending list. -/
def intRange (a b : ℤ) : List ℤ :=
  List.map (fun i : ℕ => a + (i : ℤ)) (List.range (b - a).toNat)

/-- Embedding of `tiles_around(lat, lon, z, radius)` (src/mui_tiles.py lines
94-100): project the center, then append `Tile(z, cx+dx, cy+dy)` for
`dx` in `range(-radius, radius+1)` (outer loop) and `dy` in the same range
(inner loop).  The CLI boundary enforces `radius >= 0`, so the radius is a
natural number here. -/
def tiles_around (merc lon : ℚ) (z : ℤ) (radius : ℕ) : List Tile :=
  let c := deg2num merc lon z
  (intRange (-(radius : ℤ)) ((radius : ℤ) + 1)).flatMap fun dx =>
    (intRange (-(radius : ℤ)) ((radius : ℤ) + 1)).map fun dy =>
      { z := z, x := c.1 + dx, y := c.2 + dy }

/-- The inclusive rectangular tile grid `[xmin..xmax] × [ymin..ymax]` built by
the nested loops of `tiles_for_bbox` (src/mui_tiles.py lines 112-116),
x-major and y-minor, both ascending. -/
def tileRect (z xmin xmax ymin ymax : ℤ) : List Tile :=
  (intRange xmin (xmax + 1)).flatMap fun x =>
    (intRange ymin (ymax + 1)).map fun y => { z := z, x := x, y := y }

/-- Embedding of `tiles_for_bbox(z, west, south, east, north)`
(src/mui_tiles.py lines 103-116): project the top-left corner `(north, west)`
and the bottom-right corner `(south, east)`, sort each axis independently
(`xmin, xmax = sorted((x1, x2))`, same for y), then enumerate the inclusive
rectangle.  Latitudes `south`/`north` are embedded by their Mercator
transforms `mercS`/`mercN`. -/
def tiles_for_bbox (z : ℤ) (lonW mercS lonE mercN : ℚ) : List Tile :=
  let p1 := deg2num mercN lonW z
  let p2 := deg2num mercS lonE z
  tileRect z (min p1.1 p2.1) (max p1.1 p2.1) (min p1.2 p2.2) (max p1.2 p2.2)

/-- Embedding of the zoom-range validation and per-zoom enumeration of the
`wizard` command (src/mui_tiles.py lines 579-604): the request is rejected
(`typer.BadParameter`, modelled as `none`) when
`min_z < 0 or max_z > 19 or min_z > max_z`; otherwise every zoom in
`range(min_z, max_z + 1)` is enumerated with `tiles_for_bbox` and the total
tile count is accumulated. -/
def planBatch (min_z max_z : ℤ) (lonW mercS lonE mercN : ℚ) :
    Option (List (ℤ × List Tile) × ℕ) :=
  if min_z < 0 ∨ 19 < max_z ∨ max_z < min_z then none
  else
    let plans := (intRange min_z (max_z + 1)).map fun z =>
      (z, tiles_for_bbox z lonW mercS lonE mercN)
    some (plans, (plans.map fun p => p.2.length).sum)

/-- Python `str.lower()` restricted to the ASCII case mapping. -/
def strLower (s : String) : String := ⟨s.data.map Char.toLower⟩

/-- Is the first list a leading segment of the second list? -/
def startsWithL : List Char → List Char → Bool
  | [], _ => true
  | _ :: _, [] => false
  | a :: as, b :: bs => a == b && startsWithL as bs

/-- Does the second list occur contiguously inside the first list? -/
def hasSubL (needle : List Char) : List Char → Bool
  | [] => needle.isEmpty
  | c :: t => startsWithL needle (c :: t) || hasSubL needle t

/-- Python's substring test `needle in hay` on strings. -/
def strHas (hay needle : String) : Bool := hasSubL needle.data hay.data

/-- A raw Nominatim geocoding candidate, as consumed by
`score_place_result` and `pick_best_place` (src/mui_tiles.py lines 217-281).
The code reads five string fields with `r.get(key) or ""`, so a missing or
null field is the empty string; `rtype` embeds the source's `r.get("type")`. -/
structure Cand where
  display_name : String
  name : String
  addresstype : String
  category : String
  rtype : String
deriving DecidableEq, Repr

/-- Embedding of `score_place_result(region_name, desired_country, r)`
(src/mui_tiles.py lines 217-250).  Each summand mirrors one `score +=`
statement of the source, in order. -/
def score_place_result (region_name desired_country : String) (r : Cand) : ℤ :=
  let display := strLower r.display_name
  let name := strLower r.name
  let addresstype := strLower r.addresstype
  let category := strLower r.category
  let rtype := strLower r.rtype
  let region_l := strLower region_name
  let desired_country_l := strLower desired_country
  (if strHas display region_l || region_l == name then 20 else 0) +
  (if category == "boundary" && rtype == "administrative" then 20 else 0) +
  (if ["state", "province", "region", "territory", "state_district"].contains
      addresstype then 25
   else if ["county", "city", "town", "village"].contains addresstype then -10
   else 0) +
  (if strHas display desired_country_l then 10 else 0) +
  (if strHas display "puerto rico" then -30 else 0)

/-- The region-level address types preferred by `pick_best_place`
(src/mui_tiles.py line 263). -/
def preferredTypes : List String :=
  ["state", "province", "region", "territory", "state_district"]

/-- The pre-filter of `pick_best_place` (src/mui_tiles.py line 264): keep the
candidates whose lowercased `addresstype` is region-level. -/
def regionFiltered (results : List Cand) : List Cand :=
  results.filter fun r => preferredTypes.contains (strLower r.addresstype)

/-- The working candidate list after the pre-filter (src/mui_tiles.py lines
264-266): the filtered list replaces the input only when it is non-empty. -/
def workingList (results : List Cand) : List Cand :=
  if (regionFiltered results).isEmpty then results else regionFiltered results

/-- The descending comparison used by `scored.sort(key=..., reverse=True)`:
pair `a` may precede pair `b` exactly when `a`'s score is at least `b`'s. -/
def scoreGe (a b : ℤ × Cand) : Prop := b.1 ≤ a.1

instance : DecidableRel scoreGe := fun a b => Int.decLe b.1 a.1

instance : IsTotal (ℤ × Cand) scoreGe := ⟨fun a b => le_total b.1 a.1⟩

instance : IsTrans (ℤ × Cand) scoreGe :=
  ⟨fun _ _ _ h1 h2 => le_trans h2 h1⟩

/-- Python's stable sort `scored.sort(key=lambda t: t[0], reverse=True)`
(src/mui_tiles.py line 272): insertion sort is stable, and `scoreGe` places
higher scores first while keeping the original order of equal scores. -/
def sortDesc (scored : List (ℤ × Cand)) : List (ℤ × Cand) :=
  List.insertionSort scoreGe scored

/-- The score of `scored[1]` with the source's default (src/mui_tiles.py
line 275): `scored[1][0] if len(scored) > 1 else -999`. -/
def secondScore : List (ℤ × Cand) → ℤ
  | [] => -999
  | (s, _) :: _ => s

/-- Selection on the working list (src/mui_tiles.py lines 268-281): a single
remaining candidate is returned without a prompt; otherwise the scored list is
sorted descending and the best candidate is returned, prompting exactly when
the best score does not exceed the runner-up score by at least 10. -/
def pickFrom (region_name country_name : String) :
    List Cand → Option (Cand × Bool)
  | [] => none
  | [r] => some (r, false)
  | r1 :: r2 :: rest =>
    match sortDesc ((r1 :: r2 :: rest).map fun r =>
        (score_place_result region_name country_name r, r)) with
    | [] => none
    | (best_score, best) :: tail =>
      if 10 ≤ best_score - secondScore tail then some (best, false)
      else some (best, true)

/-- Embedding of `pick_best_place(region_name, country_name, results)`
(src/mui_tiles.py lines 253-281).  The source raises `ValueError("No
results")` on an empty input list, modelled as `none`; otherwise it
pre-filters to region-level candidates and selects from the working list. -/
def pick_best_place (region_name country_name : String)
    (results : List Cand) : Option (Cand × Bool) :=
  match results with
  | [] => none
  | _ :: _ => pickFrom region_name country_name (workingList results)

/-- The scores of the working list, used to state the gap property of
`pick_best_place`. -/
def scoresOf (region_name country_name : String)
    (results : List Cand) : List ℤ :=
  (workingList results).map (score_place_result region_name country_name)


/-! ### Helper lemmas about integer ranges and tile rectangles -/

theorem mem_intRange {a b i : ℤ} : i ∈ intRange a b ↔ a ≤ i ∧ i < b := by
  unfold intRange
  simp only [List.mem_map, List.mem_range]
  constructor
  · rintro ⟨k, hk, rfl⟩
    omega
  · rintro ⟨h1, h2⟩
    exact ⟨(i - a).toNat, by omega, by omega⟩

theorem length_intRange (a b : ℤ) : (intRange a b).length = (b - a).toNat := by
  simp [intRange]

theorem nodup_intRange (a b : ℤ) : (intRange a b).Nodup := by
  unfold intRange
  refine List.Nodup.map ?_ (List.nodup_range _)
  intro i j h
  dsimp only at h
  omega

theorem mem_tileRect {z a b c d : ℤ} {t : Tile} :
    t ∈ tileRect z a b c d ↔
      t.z = z ∧ a ≤ t.x ∧ t.x ≤ b ∧ c ≤ t.y ∧ t.y ≤ d := by
  unfold tileRect
  simp only [List.mem_flatMap, List.mem_map, mem_intRange]
  constructor
  · rintro ⟨x, hx, y, hy, rfl⟩
    dsimp only
    exact ⟨rfl, by omega, by omega, by omega, by omega⟩
  · rintro ⟨hz, h1, h2, h3, h4⟩
    exact ⟨t.x, ⟨h1, by omega⟩, t.y, ⟨h3, by omega⟩, by cases t; simp_all⟩

theorem tileRect_ne_nil {z a b c d : ℤ} (hab : a ≤ b) (hcd : c ≤ d) :
    tileRect z a b c d ≠ [] := by
  intro h
  have : Tile.mk z a c ∈ tileRect z a b c d := by
    rw [mem_tileRect]
    exact ⟨rfl, le_refl a, hab, le_refl c, hcd⟩
  rw [h] at this
  exact List.not_mem_nil _ this

/-! ### C2: bounding-box corner order independence -/

/-- C2.  For every zoom and all coordinates (latitudes embedded by their
Mercator transforms), `tiles_for_bbox` returns the same list of tile indices
— hence the same set — when west/east are passed swapped, when south/north
are passed swapped, or both, as when they are passed correctly ordered. -/
theorem tiles_for_bbox_order_independent (z : ℤ) (w s e n : ℚ) :
    tiles_for_bbox z e s w n = tiles_for_bbox z w s e n ∧
    tiles_for_bbox z w n e s = tiles_for_bbox z w s e n ∧
    tiles_for_bbox z e n w s = tiles_for_bbox z w s e n := by
  refine ⟨?_, ?_, ?_⟩ <;>
    simp only [tiles_for_bbox, deg2num] <;>
    rw [min_comm, max_comm, min_comm (pyInt ((1 - _) / 2 * _)),
      max_comm (pyInt ((1 - _) / 2 * _))]

/-! ### C9: degenerate bounding boxes -/

/-- C9.  A degenerate bounding box (west = east or south = north, the latter
embedded as equal Mercator transforms) still yields a non-empty tile list:
a 1-wide strip (all tiles share the single projected x) when west = east, and
a 1-tall strip (all tiles share the single projected y) when south = north. -/
theorem tiles_for_bbox_degenerate (z : ℤ) (w s e n : ℚ)
    (hdeg : w = e ∨ s = n) :
    tiles_for_bbox z w s e n ≠ [] ∧
    (w = e → ∀ t ∈ tiles_for_bbox z w s e n, t.x = (deg2num n w z).1) ∧
    (s = n → ∀ t ∈ tiles_for_bbox z w s e n, t.y = (deg2num n w z).2) := by
  refine ⟨?_, ?_, ?_⟩
  · exact tileRect_ne_nil (min_le_max) (min_le_max)
  · rintro rfl t ht
    rw [tiles_for_bbox] at ht
    have hx : (deg2num n w z).1 = (deg2num s w z).1 := rfl
    rw [mem_tileRect] at ht
    rw [← hx] at ht
    simp only [min_self, max_self] at ht
    omega
  · rintro rfl t ht
    rw [tiles_for_bbox] at ht
    rw [mem_tileRect] at ht
    have hy : (deg2num s w z).2 = (deg2num s e z).2 := rfl
    rw [← hy] at ht
    simp only [min_self, max_self] at ht
    omega

/-- Witness for C9 at the concrete degenerate box west = east = 0,
south = north = 0 (Mercator transform 0), zoom 0. -/
theorem tiles_for_bbox_degenerate_witness :
    tiles_for_bbox 0 0 0 0 0 ≠ [] ∧
    ((0 : ℚ) = 0 → ∀ t ∈ tiles_for_bbox 0 0 0 0 0,
      t.x = (deg2num 0 0 0).1) ∧
    ((0 : ℚ) = 0 → ∀ t ∈ tiles_for_bbox 0 0 0 0 0,
      t.y = (deg2num 0 0 0).2) :=
  tiles_for_bbox_degenerate 0 0 0 0 0 (Or.inl rfl)

/-! ### C5: the square grid around a projected center -/

theorem length_flatMap_const {α β : Type} (l : List α) (f : α → List β)
    (k : ℕ) (h : ∀ a ∈ l, (f a).length = k) :
    (l.flatMap f).length = l.length * k := by
  induction l with
  | nil => simp
  | cons a t ih =>
    rw [List.flatMap_cons, List.length_append, h a (by simp),
      ih fun x hx => h x (List.mem_cons_of_mem a hx), List.length_cons]
    ring

/-- C5.  `tiles_around` returns exactly `(2r+1)^2` distinct tile indices,
namely the square `[cx-r, cx+r] × [cy-r, cy+r]` around the projected center
`(cx, cy) = deg2num merc lon z`, and radius 0 yields exactly the center
tile. -/
theorem tiles_around_square (merc lon : ℚ) (z : ℤ) (r : ℕ) :
    (tiles_around merc lon z r).length = (2 * r + 1) ^ 2 ∧
    (tiles_around merc lon z r).Nodup ∧
    (∀ t : Tile, t ∈ tiles_around merc lon z r ↔
      t.z = z ∧
      (deg2num merc lon z).1 - r ≤ t.x ∧ t.x ≤ (deg2num merc lon z).1 + r ∧
      (deg2num merc lon z).2 - r ≤ t.y ∧ t.y ≤ (deg2num merc lon z).2 + r) ∧
    tiles_around merc lon z 0 =
      [{ z := z, x := (deg2num merc lon z).1, y := (deg2num merc lon z).2 }] := by
  refine ⟨?_, ?_, ?_, ?_⟩
  · rw [tiles_around]
    rw [length_flatMap_const _ _ (2 * r + 1) ?_, length_intRange]
    · have h1 : ((r : ℤ) + 1 - -(r : ℤ)).toNat = 2 * r + 1 := by omega
      rw [h1]
      ring
    · intro dx _
      rw [List.length_map, length_intRange]
      omega
  · rw [tiles_around, List.nodup_flatMap]
    constructor
    · intro dx _
      refine List.Nodup.map ?_ (nodup_intRange _ _)
      intro i j h
      have := congrArg Tile.y h
      dsimp only at this
      omega
    · refine (nodup_intRange _ _).imp ?_
      intro dx1 dx2 hne t ht1 ht2
      rw [List.mem_map] at ht1 ht2
      obtain ⟨y1, _, rfl⟩ := ht1
      obtain ⟨y2, _, h2⟩ := ht2
      have := congrArg Tile.x h2
      dsimp only at this
      omega
  · intro t
    rw [tiles_around, List.mem_flatMap]
    constructor
    · rintro ⟨dx, hdx, ht⟩
      rw [List.mem_map] at ht
      obtain ⟨dy, hdy, rfl⟩ := ht
      rw [mem_intRange] at hdx hdy
      dsimp only
      refine ⟨rfl, by omega, by omega, by omega, by omega⟩
    · rintro ⟨hz, h1, h2, h3, h4⟩
      refine ⟨t.x - (deg2num merc lon z).1, ?_, ?_⟩
      · rw [mem_intRange]
        omega
      · rw [List.mem_map]
        refine ⟨t.y - (deg2num merc lon z).2, ?_, ?_⟩
        · rw [mem_intRange]
          omega
        · cases t
          subst hz
          dsimp only
          congr 1 <;> omega
  · have h0 : intRange (-((0 : ℕ) : ℤ)) (((0 : ℕ) : ℤ) + 1) = [0] := by decide
    simp only [tiles_around, h0, List.flatMap_cons, List.flatMap_nil,
      List.map_cons, List.map_nil, List.append_nil, add_zero]

/-! ### C1: the projector formula (corrected: `int()` truncates toward 0) -/

/-- C1, counterexample to the claim as stated.  At zoom 0, longitude 0 and a
latitude just below 89 degrees (whose Mercator transform
`asinh(tan(lat_rad))/pi` is 3/2), the claimed floor formula gives tile
y = -1 while the code's Python `int()` truncation gives y = 0. -/
theorem deg2num_floor_counterexample :
    deg2num (3 / 2) 0 0 ≠
      (⌊((0 : ℚ) + 180) / 360 * (2 : ℚ) ^ (0 : ℤ)⌋,
       ⌊(1 - (3 / 2 : ℚ)) / 2 * (2 : ℚ) ^ (0 : ℤ)⌋) := by
  have hcode : deg2num (3 / 2) 0 0 = (0, 0) := by
    rw [deg2num, pyInt, pyInt]
    norm_num
  have hclaim : (⌊((0 : ℚ) + 180) / 360 * (2 : ℚ) ^ (0 : ℤ)⌋,
      ⌊(1 - (3 / 2 : ℚ)) / 2 * (2 : ℚ) ^ (0 : ℤ)⌋) = ((0 : ℤ), (-1 : ℤ)) := by
    norm_num
  rw [hcode, hclaim]
  decide

/-- C1 as amended.  For longitudes in [-180, 180] the x formula of the claim
holds as stated, and the y formula holds whenever the Mercator transform of
the latitude is at most 1 (latitude at most about 85.05 degrees, the
Web-Mercator extent), because then the truncated quantity is nonnegative and
Python `int()` agrees with floor. -/
theorem deg2num_floor (z : ℤ) (merc lon : ℚ)
    (hlon1 : -180 ≤ lon) (hlon2 : lon ≤ 180) (hm : merc ≤ 1) :
    deg2num merc lon z =
      (⌊(lon + 180) / 360 * (2 : ℚ) ^ z⌋,
       ⌊(1 - merc) / 2 * (2 : ℚ) ^ z⌋) := by
  have hpow : (0 : ℚ) < (2 : ℚ) ^ z := zpow_pos (by norm_num) z
  have hx : (0 : ℚ) ≤ (lon + 180) / 360 * (2 : ℚ) ^ z := by
    apply mul_nonneg _ (le_of_lt hpow)
    apply div_nonneg _ (by norm_num)
    linarith
  have hy : (0 : ℚ) ≤ (1 - merc) / 2 * (2 : ℚ) ^ z := by
    apply mul_nonneg _ (le_of_lt hpow)
    apply div_nonneg _ (by norm_num)
    linarith
  rw [deg2num, pyInt, pyInt, if_pos hx, if_pos hy]

/-- Witness for the amended C1 at zoom 0, longitude 0, Mercator transform 0
(the equator). -/
theorem deg2num_floor_witness :
    deg2num 0 0 0 =
      (⌊((0 : ℚ) + 180) / 360 * (2 : ℚ) ^ (0 : ℤ)⌋,
       ⌊(1 - (0 : ℚ)) / 2 * (2 : ℚ) ^ (0 : ℤ)⌋) :=
  deg2num_floor 0 0 0 (by norm_num) (by norm_num) (by norm_num)

/-! ### C7: the empty candidate list is a hard error -/

/-- C7.  For every region name and country name, `pick_best_place` applied to
the empty candidate list fails (the source raises `ValueError("No results")`,
modelled as `none`); it never returns a selection. -/
theorem pick_best_place_empty (region_name country_name : String) :
    pick_best_place region_name country_name [] = none := rfl

/-! ### C8: zoom-range validation happens before enumeration -/

/-- C8.  The batch planner rejects the request exactly when `min_z > max_z`
or either bound lies outside 0..19, and it produces a per-zoom enumeration
exactly when `0 <= min_z <= max_z <= 19`. -/
theorem planBatch_zoom_validation (min_z max_z : ℤ) (w s e n : ℚ) :
    (planBatch min_z max_z w s e n = none ↔
      max_z < min_z ∨ min_z < 0 ∨ 19 < min_z ∨ max_z < 0 ∨ 19 < max_z) ∧
    ((∃ plan, planBatch min_z max_z w s e n = some plan) ↔
      0 ≤ min_z ∧ min_z ≤ max_z ∧ max_z ≤ 19) := by
  rw [planBatch]
  split_ifs with h
  · constructor
    · simp only [true_iff]
      omega
    · simp only [false_iff, reduceCtorEq, exists_false]
      omega
  · constructor
    · simp only [reduceCtorEq, false_iff]
      omega
    · simp only [Option.some.injEq, exists_eq', true_iff]
      omega

/-! ### Helper lemmas about the descending stable sort -/

theorem sortDesc_perm (l : List (ℤ × Cand)) : (sortDesc l).Perm l :=
  List.perm_insertionSort scoreGe l

theorem sortDesc_sorted (l : List (ℤ × Cand)) :
    List.Sorted scoreGe (sortDesc l) :=
  List.sorted_insertionSort scoreGe l

theorem maximum_coe_of_perm {l1 l2 : List ℤ} {m : ℤ} (hp : l1.Perm l2)
    (h : l2.maximum = (m : WithBot ℤ)) : l1.maximum = (m : WithBot ℤ) := by
  rw [List.maximum_eq_coe_iff] at h ⊢
  exact ⟨hp.mem_iff.mpr h.1, fun a ha => h.2 a (hp.mem_iff.mp ha)⟩

/-- The head of the descending sort carries the maximum score. -/
theorem sortDesc_head_max {l : List (ℤ × Cand)} {p : ℤ × Cand}
    {t : List (ℤ × Cand)} (h : sortDesc l = p :: t) :
    (l.map Prod.fst).maximum = (p.1 : WithBot ℤ) := by
  have hperm : (p :: t).Perm l := by
    rw [← h]
    exact sortDesc_perm l
  have hsor : List.Sorted scoreGe (p :: t) := by
    rw [← h]
    exact sortDesc_sorted l
  rw [List.sorted_cons] at hsor
  rw [List.maximum_eq_coe_iff]
  constructor
  · exact List.mem_map_of_mem Prod.fst (hperm.mem_iff.mp (List.mem_cons_self p t))
  · intro a ha
    obtain ⟨c, hc, rfl⟩ := List.mem_map.mp ha
    have hct : c ∈ p :: t := hperm.mem_iff.mpr hc
    rcases List.mem_cons.mp hct with hcp | hctail
    · rw [hcp]
    · exact hsor.1 c hctail

/-- The second element of the descending sort carries the maximum of the
scores with one occurrence of the top score removed. -/
theorem sortDesc_second_max {l : List (ℤ × Cand)} {p q : ℤ × Cand}
    {t : List (ℤ × Cand)} (h : sortDesc l = p :: q :: t) :
    ((l.map Prod.fst).erase p.1).maximum = (q.1 : WithBot ℤ) := by
  have hperm : (p :: q :: t).Perm l := by
    rw [← h]
    exact sortDesc_perm l
  have hsor : List.Sorted scoreGe (p :: q :: t) := by
    rw [← h]
    exact sortDesc_sorted l
  have hmap : (p.1 :: q.1 :: t.map Prod.fst).Perm (l.map Prod.fst) := by
    simpa using hperm.map Prod.fst
  have herase : ((l.map Prod.fst).erase p.1).Perm (q.1 :: t.map Prod.fst) := by
    have h2 := (hmap.symm).erase p.1
    rwa [List.erase_cons_head] at h2
  apply maximum_coe_of_perm herase
  rw [List.maximum_eq_coe_iff]
  constructor
  · exact List.mem_cons_self _ _
  · intro a ha
    rcases List.mem_cons.mp ha with rfl | hat
    · exact le_refl _
    · obtain ⟨c, hc, rfl⟩ := List.mem_map.mp hat
      rw [List.sorted_cons, List.sorted_cons] at hsor
      exact hsor.2.1 c hc

/-- Membership in the scored list determines the score component. -/
theorem mem_scored {region_name country_name : String} {w : List Cand}
    {p : ℤ × Cand}
    (hp : p ∈ w.map fun r => (score_place_result region_name country_name r, r)) :
    p.1 = score_place_result region_name country_name p.2 ∧ p.2 ∈ w := by
  obtain ⟨c, hc, rfl⟩ := List.mem_map.mp hp
  exact ⟨rfl, hc⟩

/-! ### C3: the 10-point auto-select gap -/

/-- C3.  Whenever at least two candidates remain on the working list after
the region-level pre-filter, `pick_best_place` returns some top-scored
candidate (its score is the maximum `top` of the working scores), and it
returns `needs_confirmation = false` exactly when `top` exceeds the
runner-up score (the maximum `second` of the working scores with one
occurrence of `top` removed) by at least 10; in particular two identically
scored top candidates force `needs_confirmation = true`. -/
theorem pick_best_place_gap (region_name country_name : String)
    (results : List Cand) (h2 : 2 ≤ (workingList results).length) :
    ∃ (best : Cand) (needs : Bool) (top second : ℤ),
      pick_best_place region_name country_name results = some (best, needs) ∧
      (scoresOf region_name country_name results).maximum
        = (top : WithBot ℤ) ∧
      ((scoresOf region_name country_name results).erase top).maximum
        = (second : WithBot ℤ) ∧
      score_place_result region_name country_name best = top ∧
      (needs = false ↔ 10 ≤ top - second) := by
  cases results with
  | nil =>
    rw [show workingList [] = [] from rfl] at h2
    simp at h2
  | cons r rs =>
    obtain ⟨w1, w2, wt, hw⟩ :
        ∃ w1 w2 wt, workingList (r :: rs) = w1 :: w2 :: wt := by
      cases hwl : workingList (r :: rs) with
      | nil =>
        rw [hwl] at h2
        simp at h2
      | cons a t =>
        cases t with
        | nil =>
          rw [hwl] at h2
          simp at h2
        | cons b t2 => exact ⟨a, b, t2, rfl⟩
    have hscored2 : 2 ≤ (sortDesc ((w1 :: w2 :: wt).map fun c =>
        (score_place_result region_name country_name c, c))).length := by
      rw [(sortDesc_perm _).length_eq, List.length_map]
      simp
    obtain ⟨bs, b, ss, c2, t, hsort⟩ :
        ∃ bs b ss c2 t, sortDesc ((w1 :: w2 :: wt).map fun c =>
          (score_place_result region_name country_name c, c))
            = (bs, b) :: (ss, c2) :: t := by
      cases hsl : sortDesc ((w1 :: w2 :: wt).map fun c =>
          (score_place_result region_name country_name c, c)) with
      | nil =>
        rw [hsl] at hscored2
        simp at hscored2
      | cons a t =>
        cases t with
        | nil =>
          rw [hsl] at hscored2
          simp at hscored2
        | cons b t2 =>
          obtain ⟨a1, a2⟩ := a
          obtain ⟨b1, b2⟩ := b
          exact ⟨a1, a2, b1, b2, t2, rfl⟩
    have hpick : pick_best_place region_name country_name (r :: rs) =
        (if 10 ≤ bs - ss then some (b, false) else some (b, true)) := by
      have h0 : pick_best_place region_name country_name (r :: rs) =
          pickFrom region_name country_name (workingList (r :: rs)) := rfl
      rw [h0, hw]
      show (match sortDesc ((w1 :: w2 :: wt).map fun c =>
          (score_place_result region_name country_name c, c)) with
        | [] => none
        | (best_score, best) :: tail =>
          if 10 ≤ best_score - secondScore tail then some (best, false)
          else some (best, true)) = _
      rw [hsort]
      rfl
    have hscores : scoresOf region_name country_name (r :: rs) =
        ((w1 :: w2 :: wt).map fun c =>
          (score_place_result region_name country_name c, c)).map Prod.fst := by
      rw [scoresOf, hw, List.map_map]
      rfl
    have htop : (scoresOf region_name country_name (r :: rs)).maximum
        = (bs : WithBot ℤ) := by
      rw [hscores]
      exact sortDesc_head_max hsort
    have hsec :
        ((scoresOf region_name country_name (r :: rs)).erase bs).maximum
          = (ss : WithBot ℤ) := by
      rw [hscores]
      exact sortDesc_second_max hsort
    have hbest : score_place_result region_name country_name b = bs := by
      have hpmem : ((bs, b) : ℤ × Cand) ∈ (w1 :: w2 :: wt).map fun c =>
          (score_place_result region_name country_name c, c) :=
        (sortDesc_perm ((w1 :: w2 :: wt).map fun c =>
          (score_place_result region_name country_name c, c))).mem_iff.mp
          (by rw [hsort]; exact List.mem_cons_self _ _)
      exact ((mem_scored hpmem).1).symm
    by_cases hgap : 10 ≤ bs - ss
    · refine ⟨b, false, bs, ss, ?_, htop, hsec, hbest, ?_⟩
      · rw [hpick, if_pos hgap]
      · simp [hgap]
    · refine ⟨b, true, bs, ss, ?_, htop, hsec, hbest, ?_⟩
      · rw [hpick, if_neg hgap]
      · simp [hgap]

/-- A candidate with no usable fields, for witnesses. -/
def candA3 : Cand := ⟨"alpha", "", "", "", ""⟩

/-- A second candidate with no usable fields, for witnesses. -/
def candB3 : Cand := ⟨"beta", "", "", "", ""⟩

/-- Witness for C3 on a concrete two-candidate list whose pre-filter keeps
both candidates (both score 0, so the pick needs confirmation). -/
theorem pick_best_place_gap_witness :
    ∃ (best : Cand) (needs : Bool) (top second : ℤ),
      pick_best_place "x" "y" [candA3, candB3] = some (best, needs) ∧
      (scoresOf "x" "y" [candA3, candB3]).maximum = (top : WithBot ℤ) ∧
      ((scoresOf "x" "y" [candA3, candB3]).erase top).maximum
        = (second : WithBot ℤ) ∧
      score_place_result "x" "y" best = top ∧
      (needs = false ↔ 10 ≤ top - second) :=
  pick_best_place_gap "x" "y" [candA3, candB3] (by decide)

/-! ### C6: a lone state-level candidate beats a county-level one -/

/-- C6.  On a candidate list holding exactly one state-level and one
county-level candidate whose display names both contain the target region
name, `pick_best_place` selects the state-level candidate without
escalation, in either input order: the pre-filter keeps only the state-level
candidate, and a singleton working list is returned with
`needs_confirmation = false`. -/
theorem pick_best_place_state_over_county (region_name country_name : String)
    (cs cc : Cand) (hs : cs.addresstype = "state")
    (hc : cc.addresstype = "county")
    (hshare1 : strHas (strLower cs.display_name) (strLower region_name) = true)
    (hshare2 : strHas (strLower cc.display_name) (strLower region_name) = true) :
    pick_best_place region_name country_name [cs, cc] = some (cs, false) ∧
    pick_best_place region_name country_name [cc, cs] = some (cs, false) := by
  have hps : strLower cs.addresstype ∈ preferredTypes := by
    rw [hs]
    decide
  have hpc : strLower cc.addresstype ∉ preferredTypes := by
    rw [hc]
    decide
  have hf1 : regionFiltered [cs, cc] = [cs] := by
    simp [regionFiltered, List.filter_cons, hps, hpc]
  have hf2 : regionFiltered [cc, cs] = [cs] := by
    simp [regionFiltered, List.filter_cons, hps, hpc]
  have hwk1 : workingList [cs, cc] = [cs] := by
    rw [workingList, hf1]
    simp
  have hwk2 : workingList [cc, cs] = [cs] := by
    rw [workingList, hf2]
    simp
  constructor
  · have h0 : pick_best_place region_name country_name [cs, cc] =
        pickFrom region_name country_name (workingList [cs, cc]) := rfl
    rw [h0, hwk1]
    rfl
  · have h0 : pick_best_place region_name country_name [cc, cs] =
        pickFrom region_name country_name (workingList [cc, cs]) := rfl
    rw [h0, hwk2]
    rfl

/-- A concrete state-level candidate for the C6 witness. -/
def candStateFl : Cand :=
  ⟨"Florida, United States", "Florida", "state", "boundary", "administrative"⟩

/-- A concrete county-level candidate for the C6 witness. -/
def candCountyFl : Cand :=
  ⟨"Florida County, Somewhere", "Florida", "county", "boundary",
   "administrative"⟩

/-- Witness for C6 with concrete Florida state/county candidates. -/
theorem pick_best_place_state_over_county_witness :
    pick_best_place "Florida" "USA" [candStateFl, candCountyFl]
      = some (candStateFl, false) ∧
    pick_best_place "Florida" "USA" [candCountyFl, candStateFl]
      = some (candStateFl, false) :=
  pick_best_place_state_over_county "Florida" "USA" candStateFl candCountyFl
    rfl rfl (by decide) (by decide)

/-! ### C10: the selected candidate is a member of the input list -/

theorem pickFrom_mem {region_name country_name : String} {w : List Cand}
    {c : Cand} {needs : Bool}
    (h : pickFrom region_name country_name w = some (c, needs)) : c ∈ w := by
  cases w with
  | nil => simp [pickFrom] at h
  | cons r1 rs1 =>
    cases rs1 with
    | nil =>
      have h2 : some (r1, false) = some (c, needs) := h
      rw [Option.some.injEq, Prod.mk.injEq] at h2
      rw [← h2.1]
      exact List.mem_cons_self _ _
    | cons r2 rs2 =>
      rw [pickFrom] at h
      cases hsl : sortDesc ((r1 :: r2 :: rs2).map fun r =>
          (score_place_result region_name country_name r, r)) with
      | nil =>
        rw [hsl] at h
        simp at h
      | cons p tail =>
        rw [hsl] at h
        obtain ⟨ps, pc⟩ := p
        have hmem : ((ps, pc) : ℤ × Cand) ∈ (r1 :: r2 :: rs2).map fun r =>
            (score_place_result region_name country_name r, r) :=
          (sortDesc_perm _).mem_iff.mp (by rw [hsl]; exact List.mem_cons_self _ _)
        have hcw : pc ∈ r1 :: r2 :: rs2 := (mem_scored hmem).2
        have h3 : (if 10 ≤ ps - secondScore tail then some (pc, false)
            else some (pc, true)) = some (c, needs) := h
        split_ifs at h3 <;>
          (rw [Option.some.injEq, Prod.mk.injEq] at h3; rw [← h3.1]; exact hcw)

/-- C10.  Any candidate returned by `pick_best_place` is an element of the
input list, unchanged: the resolver only filters, scores and sorts, and
never fabricates, merges, or mutates a candidate. -/
theorem pick_best_place_mem (region_name country_name : String)
    (results : List Cand) (c : Cand) (needs : Bool)
    (h : pick_best_place region_name country_name results = some (c, needs)) :
    c ∈ results := by
  cases results with
  | nil => simp [pick_best_place] at h
  | cons r rs =>
    have h0 : pickFrom region_name country_name (workingList (r :: rs))
        = some (c, needs) := h
    have hcw : c ∈ workingList (r :: rs) := pickFrom_mem h0
    rw [workingList] at hcw
    by_cases he : (regionFiltered (r :: rs)).isEmpty = true
    · rw [if_pos he] at hcw
      exact hcw
    · rw [if_neg he] at hcw
      rw [regionFiltered] at hcw
      exact List.mem_of_mem_filter hcw

/-- A concrete candidate for the C10 witness. -/
def candNY : Cand :=
  ⟨"New York, United States", "New York", "state", "boundary",
   "administrative"⟩

/-- Witness for C10: the candidate picked from a concrete singleton list is
that list's element. -/
theorem pick_best_place_mem_witness : candNY ∈ [candNY] :=
  pick_best_place_mem "New York" "USA" [candNY] candNY false (by decide)

/-! ### C4: the "puerto rico" penalty (corrected: other display-derived
bonuses can offset part of the 30) -/

/-- A candidate whose display name avoids every bonus, for the C4
counterexample. -/
def candPlain : Cand := ⟨"zz", "", "", "", ""⟩

/-- A candidate whose display name is exactly "puerto rico", for the C4
counterexample. -/
def candPR : Cand := ⟨"puerto rico", "", "", "", ""⟩

/-- C4, counterexample to the claim as stated.  The two candidates are
identical except for the display name, one display name contains
"puerto rico" and the other does not; yet with region name "puerto" the
penalized candidate also collects the +20 region-name bonus the other one
misses, so its score is only 10 points lower, not at least 30. -/
theorem score_puerto_rico_counterexample :
    candPlain.name = candPR.name ∧
    candPlain.addresstype = candPR.addresstype ∧
    candPlain.category = candPR.category ∧
    candPlain.rtype = candPR.rtype ∧
    strHas (strLower candPR.display_name) "puerto rico" = true ∧
    strHas (strLower candPlain.display_name) "puerto rico" = false ∧
    ¬ (score_place_result "puerto" "qq" candPR
        ≤ score_place_result "puerto" "qq" candPlain - 30) := by
  decide

/-- C4 as amended.  For candidates identical except for the display name,
where one display name contains "puerto rico" and the other does not, the
penalized candidate scores at least 30 points lower provided the two display
names agree on whether they contain the region name and on whether they
contain the target country name (the only other display-derived bonuses). -/
theorem score_puerto_rico_penalty (region_name country_name : String)
    (r1 r2 : Cand)
    (hname : r1.name = r2.name) (haddr : r1.addresstype = r2.addresstype)
    (hcat : r1.category = r2.category) (htyp : r1.rtype = r2.rtype)
    (hreg : strHas (strLower r1.display_name) (strLower region_name)
          = strHas (strLower r2.display_name) (strLower region_name))
    (hctry : strHas (strLower r1.display_name) (strLower country_name)
           = strHas (strLower r2.display_name) (strLower country_name))
    (hpr2 : strHas (strLower r2.display_name) "puerto rico" = true)
    (hpr1 : strHas (strLower r1.display_name) "puerto rico" = false) :
    score_place_result region_name country_name r2
      ≤ score_place_result region_name country_name r1 - 30 := by
  simp only [score_place_result]
  rw [hname, haddr, hcat, htyp, hreg, hctry, hpr1, hpr2]
  simp only [Bool.false_eq_true, if_false, if_true]
  omega

/-- A display name with region and country but without "puerto rico", for
the C4 witness. -/
def candFlUsa : Cand :=
  ⟨"florida, usa", "florida", "state", "boundary", "administrative"⟩

/-- The same candidate with "puerto rico" appended to the display name, for
the C4 witness. -/
def candFlUsaPR : Cand :=
  ⟨"florida, usa, puerto rico", "florida", "state", "boundary",
   "administrative"⟩

/-- Witness for the amended C4 on concrete candidates whose display names
agree on the region-name and country-name bonuses. -/
theorem score_puerto_rico_penalty_witness :
    score_place_result "Florida" "USA" candFlUsaPR
      ≤ score_place_result "Florida" "USA" candFlUsa - 30 :=
  score_puerto_rico_penalty "Florida" "USA" candFlUsa candFlUsaPR
    rfl rfl rfl rfl (by decide) (by decide) (by decide) (by decide)
